import Mathlib

/-!
Shallow embedding of the block-production scheduler ("worker") of the
N42 blockchain client, `internal/miner/worker.go`, together with theorems
checking the natural-language specification against it.

Machine integers (uint64, int32, uint256) are modelled as `Nat`/`Int`;
overflow is written out explicitly (`% 2^64`) at the one place where the
source can wrap (the gas-utilization subtraction).  The external
collaborators (state-transition function, consensus engine, chain store,
transaction pool) are parameters of the embedded functions, exactly as
they are dynamic-dispatch interfaces in the source.
-/

namespace Miner

/-- Block/seal hashes, addresses and transactions are opaque identifiers
to the scheduler; they are modelled as `Nat`. -/
abbrev Hash := Nat

abbrev Address := Nat

abbrev Tx := Nat

/-- A log entry of a receipt; the scheduler only ever touches its
`BlockHash` field (stamped by the result loop), so the rest of the payload
is an opaque identifier. -/
structure LogM where
  payload : Nat
  blockHash : Hash
deriving DecidableEq, Repr

/-- A transaction receipt as the scheduler sees it: the fields the worker
reads or writes (`GasUsed`, the block-location fields stamped by
`resultLoop`, and the contained logs); the remaining payload is opaque. -/
structure Receipt where
  gasUsed : Nat
  blockHash : Hash
  blockNumber : Nat
  txIndex : Nat
  logs : List LogM
deriving DecidableEq, Repr

/-- The draft block header fields the worker reads or writes
(`block.Header` in the source, restricted to the fields `worker.go`
touches). -/
structure HeaderM where
  parentHash : Hash
  coinbase : Address
  number : Nat
  gasLimit : Nat
  gasUsed : Nat
  time : Nat
deriving DecidableEq, Repr

/-- A pending sealing task (`type task` in the source): the receipts and
block produced by one build context, keyed in `pendingTasks` by pre-seal
hash.  The intra-block state and the unpaid-reward map ride along opaquely
and are omitted; `blockNumber` is the number of `task.block`. -/
structure TaskM where
  blockNumber : Nat
  receipts : List Receipt
deriving DecidableEq, Repr

/-- Interruption signal values (`commitInterruptNone` iota block in the
source, an `int32`). -/
def commitInterruptNone : Int := 0

def commitInterruptNewHead : Int := 1

def commitInterruptResubmit : Int := 2

def commitInterruptTimeout : Int := 3

/-- `staleThreshold = 7` from the source's constant block. -/
def staleThreshold : Nat := 7

/-- The build context (`type environment` in the source).  The ancestor
and family sets are sets of hashes (modelled as lists, insertion order
kept); `gasPool` models the `*common.GasPool` remaining-gas counter.
Modelled from the spec: `common.GasPool` itself is repository code not
under `src/`; per the spec it wraps a single non-negative gas quantity
with `AddGas`/`SubGas`, so its state is one `Nat`. -/
structure Environment where
  ancestors : List Hash
  family : List Hash
  tcount : Nat
  gasPool : Nat
  coinbase : Address
  header : HeaderM
  txs : List Tx
  receipts : List Receipt
deriving DecidableEq, Repr

/-- `environment.copy` from the source: fresh clones of the sets, a header
copy, a copied `txs` slice; the `receipts` slice is aliased.  Under value
semantics every field is copied by value. -/
def envCopy (env : Environment) : Environment :=
  { ancestors := env.ancestors
    family := env.family
    tcount := env.tcount
    coinbase := env.coinbase
    header := env.header
    receipts := env.receipts
    gasPool := env.gasPool
    txs := env.txs }

/-- `clearPending` from `workLoop`: on a start signal or a new canonical
head with number `number`, delete every pending task `t` with
`number.Cmp(t.block.Number64() + staleThreshold) < 1`, i.e. delete exactly
when `number ≤ t.blockNumber + staleThreshold`; an entry is kept exactly
when `t.blockNumber + staleThreshold < number`.  (`uint256` arithmetic
cannot wrap for the block numbers involved, so `Nat` is used.) -/
def clearPending (number : Nat) (pending : List (Hash × TaskM)) :
    List (Hash × TaskM) :=
  pending.filter (fun ht => !(decide (number ≤ ht.2.blockNumber + staleThreshold)))

/-- Minimum transaction gas cost.  Modelled from the spec: `params.TxGas`
lives outside `src/`; the spec's step 2 calls it "the minimum transaction
cost" (the protocol constant 21000). -/
def TxGas : Nat := 21000

/-- Outcome of one call to the external state-transition function
`internal.ApplyTransaction`: it receives the intra-block state, the gas
pool and `header.GasUsed` (all by reference in the source) and either
returns a receipt with their updated values, or fails with a
classification, leaving behind whatever values it had written before
failing (the caller is responsible for rolling back). -/
inductive ApplyResult (σ : Type) where
  | ok (receipt : Receipt) (ibs : σ) (gasPool : Nat) (gasUsed : Nat)
  | fail (e : Nat) (ibs : σ) (gasPool : Nat) (gasUsed : Nat)
deriving DecidableEq, Repr

/-- Error classifications distinguished by `fillTransactions`' switch:
`core.ErrGasLimitReached`, `core.ErrNonceTooHigh`, `core.ErrNonceTooLow`
(external sentinel errors), encoded as distinguished codes; any other
code is "some other error". -/
def errGasLimitReached : Nat := 1

def errNonceTooHigh : Nat := 2

def errNonceTooLow : Nat := 3

/-- The external state-transition function, a parameter of the embedding
(dynamic dispatch in the source): transaction, intra-block state, gas-pool
value, `header.GasUsed` value in; `ApplyResult` out. -/
def ApplyFn (σ : Type) := Tx → σ → Nat → Nat → ApplyResult σ

/-- `ibs.Prepare(txn.Hash(), types.Hash{}, env.tcount)`: the state view's
prepare step, run before the snapshot is taken (so it is not rolled back
on failure).  External; a parameter. -/
def PrepareFn (σ : Type) := Tx → Nat → σ → σ

/-- The `miningCommitTx` closure inside `fillTransactions`: prepare the
state, snapshot the gas pool and the state, apply the transaction; on
success append the transaction and its receipt to the context and keep
the updated pool/state/`GasUsed`; on failure revert the state to the
snapshot and rebuild the gas pool at the snapshot value
(`env.gasPool = new(common.GasPool).AddGas(gasSnap)`) — `header.GasUsed`
is not restored.  Returns the mutated context and state plus the error. -/
def miningCommitTx {σ : Type} (apply : ApplyFn σ) (prep : PrepareFn σ)
    (txn : Tx) (env : Environment) (ibs : σ) :
    Environment × σ × Option Nat :=
  let ibs0 := prep txn env.tcount ibs
  let gasSnap := env.gasPool
  let snap := ibs0
  match apply txn ibs0 env.gasPool env.header.gasUsed with
  | .ok receipt ibs1 gasPool1 gasUsed1 =>
      ({ env with
          gasPool := gasPool1
          header := { env.header with gasUsed := gasUsed1 }
          txs := env.txs ++ [txn]
          receipts := env.receipts ++ [receipt] }, ibs1, none)
  | .fail e _ _ gasUsed1 =>
      ({ env with
          gasPool := gasSnap
          header := { env.header with gasUsed := gasUsed1 } }, snap, some e)

/-- The error classifications `fillTransactions` can return
(`errBlockInterruptedByNewHead` / `Recommit` / `Timeout` sentinels, plus
the propagated transaction-pool error from `GetTransaction`). -/
inductive FillError where
  | interruptedByNewHead
  | interruptedByRecommit
  | interruptedByTimeout
  | txPoolError
deriving DecidableEq, Repr

/-- How one run of `fillTransactions` ended: normally (`nil` return),
with one of its sentinel errors, or in a panic raised by `signalToErr`
on an undefined signal value. -/
inductive FillOutcome where
  | ok
  | failed (e : FillError)
  | panicked (signal : Int)
deriving DecidableEq, Repr

/-- The result of `fillTransactions`: the build context and intra-block
state as mutated in place by the source, plus how the run ended. -/
structure FillResult (σ : Type) where
  env : Environment
  ibs : σ
  outcome : FillOutcome

/-- `signalToErr` from the source: maps the three defined interruption
signals to their sentinel errors and panics (`Except.error` carries the
offending value) on anything else. -/
def signalToErr (signal : Int) : Except Int FillError :=
  if signal = commitInterruptNewHead then .ok .interruptedByNewHead
  else if signal = commitInterruptResubmit then .ok .interruptedByRecommit
  else if signal = commitInterruptTimeout then .ok .interruptedByTimeout
  else .error signal

/-- The candidate loop of `fillTransactions`.  `interrupt` is the atomic
interruption flag: `none` models a nil pointer (no check at all), and
`some f` gives the value an atomic load observes before the `step`-th
candidate is attempted.  Per candidate: check the interruption signal and
abort via `signalToErr` if it is non-none; stop if the remaining gas is
below `params.TxGas`; otherwise run `miningCommitTx` and continue with
the next candidate whatever the error was, incrementing `tcount` only on
success. -/
def fillLoop {σ : Type} (interrupt : Option (Nat → Int)) (apply : ApplyFn σ)
    (prep : PrepareFn σ) (txs : List Tx) (env : Environment) (ibs : σ)
    (step : Nat) : FillResult σ :=
  match txs with
  | [] => ⟨env, ibs, .ok⟩
  | txn :: rest =>
    let signal : Int :=
      match interrupt with
      | some f => f step
      | none => commitInterruptNone
    if signal ≠ commitInterruptNone then
      match signalToErr signal with
      | .ok e => ⟨env, ibs, .failed e⟩
      | .error s => ⟨env, ibs, .panicked s⟩
    else if env.gasPool < TxGas then
      ⟨env, ibs, .ok⟩
    else
      let res := miningCommitTx apply prep txn env ibs
      match res.2.2 with
      | none =>
          fillLoop interrupt apply prep rest
            { res.1 with tcount := res.1.tcount + 1 } res.2.1 (step + 1)
      | some _ =>
          fillLoop interrupt apply prep rest res.1 res.2.1 (step + 1)

/-- `fillTransactions` from the source: clear `env.txs`, pull the
candidate list once from the pool (`txsRes` is the `GetTransaction`
result; on error it is returned after the clear), then run the candidate
loop. -/
def fillTransactions {σ : Type} (interrupt : Option (Nat → Int))
    (apply : ApplyFn σ) (prep : PrepareFn σ)
    (txsRes : Except Unit (List Tx)) (env : Environment) (ibs : σ) :
    FillResult σ :=
  let env0 := { env with txs := [] }
  match txsRes with
  | .error _ => ⟨env0, ibs, .failed .txPoolError⟩
  | .ok txs => fillLoop interrupt apply prep txs env0 ibs 0

/-- `makeEnv` from the source: fresh ancestor/family sets filled with the
hashes of up to 3 blocks fetched from the parent's parent hash, zero
`tcount`, and a gas pool charged with `header.GasLimit`
(`new(common.GasPool).AddGas(header.GasLimit)`); `txs`/`receipts` start
nil.  `getBlocksFromHash` stands for the chain store's lookup. -/
def makeEnv (getBlocksFromHash : Hash → Nat → List Hash)
    (parent : HeaderM) (header : HeaderM) (coinbase : Address) :
    Environment :=
  let anc := getBlocksFromHash parent.parentHash 3
  { ancestors := anc
    family := anc
    tcount := 0
    gasPool := header.gasLimit
    coinbase := coinbase
    header := header
    txs := []
    receipts := [] }

/-- `intervalAdjustRatio = 0.1` from the source's constant block, as the
exact rational value of the literal.  The source computes in `float64`;
the embedding computes in `ℚ`, which is exact on the decimal literals and
whose comparisons agree with `float64` on all inputs considered here
(the values stay far from the rounding error of a `float64`). -/
def intervalAdjustRatio : ℚ := 1 / 10

/-- `intervalAdjustBias = 200 * 1000.0 * 1000.0` nanoseconds. -/
def intervalAdjustBias : ℚ := 200000000

/-- `maxRecommitInterval = 12 * time.Second`, in nanoseconds
(a `time.Duration` is an `int64` nanosecond count). -/
def maxRecommitIntervalNs : Int := 12000000000

/-- `minPeriodInterval = 1 * time.Second`, in nanoseconds. -/
def minPeriodIntervalNs : Int := 1000000000

/-- Go's `int64(f)` conversion on a `float64`: truncation toward zero. -/
def durTrunc (q : ℚ) : Int := if q < 0 then Int.ceil q else Int.floor q

/-- `recalcRecommit` from the source: exponential-moving-average step
toward `target`, capped at `maxRecommitInterval` on the increase branch
and floored at `minRecommit` on the decrease branch, then converted to a
`time.Duration` by `time.Duration(int64(next))`.  Intervals are `int64`
nanosecond counts; the float arithmetic is carried out in `ℚ`. -/
def recalcRecommit (minRecommit prev : Int) (target : ℚ) (inc : Bool) :
    Int :=
  let prevF : ℚ := (prev : ℚ)
  let next : ℚ :=
    if inc then
      let n := prevF * (1 - intervalAdjustRatio) +
        intervalAdjustRatio * (target + intervalAdjustBias)
      if n > (maxRecommitIntervalNs : ℚ) then (maxRecommitIntervalNs : ℚ)
      else n
    else
      let n := prevF * (1 - intervalAdjustRatio) +
        intervalAdjustRatio * (target - intervalAdjustBias)
      if n < (minRecommit : ℚ) then (minRecommit : ℚ) else n
  durTrunc next

/-- Wrapping uint64 subtraction `a - b` as the source performs it on
`gaslimit - current.gasPool.Gas()`. -/
def sub64 (a b : Nat) : Nat := ((((a : Int) - (b : Int)) % (2 ^ 64 : Int))).toNat

/-- The gas-utilization ratio computed in `commitWork`'s recommit branch:
`float64(gaslimit-gasPool.Gas()) / float64(gaslimit)`, clamped below at
0.1.  Carried out in `ℚ` (division by a zero gas limit yields 0 here
where `float64` yields NaN; no claim touches that case). -/
def utilRatio (env : Environment) : ℚ :=
  let gaslimit := env.header.gasLimit
  let ratio : ℚ := (sub64 gaslimit env.gasPool : ℚ) / (gaslimit : ℚ)
  if ratio < 1 / 10 then 1 / 10 else ratio

/-- An `intervalAdjust` message sent on `resubmitAdjustCh`. -/
structure Adjust where
  ratio : ℚ
  inc : Bool
deriving DecidableEq, Repr

/-- How one call to `commitWork` ended. -/
inductive CommitOutcome where
  | errCoinbaseEmpty
  | errPrepare
  | errBeginRo
  | panicked (signal : Int)
  | errCommit
  | done
deriving DecidableEq, Repr

/-- Observable effects of one `commitWork` call: the feedback message
sent on `resubmitAdjustCh` (if any), the `updateSnapshot` payload (the
snapshot block's transactions and the copied receipts, if the snapshot
was replaced), the receipts of the task submitted on `taskCh` (if one
was), and how the call ended. -/
structure CommitWorkResult where
  feedback : Option Adjust
  snapshotUpdated : Option (List Tx × List Receipt)
  submittedTask : Option (List Receipt)
  outcome : CommitOutcome
deriving DecidableEq, Repr

/-- `copyReceipts` from the source: a deep copy of the receipt slice;
under value semantics an element-wise identity. -/
def copyReceipts (receipts : List Receipt) : List Receipt :=
  receipts.map (fun r => r)

/-- `commitWork` composed with `commit` from the source, over abstract
collaborators: if running with an empty coinbase, fail; then `prepareWork`
(its result is the parameter `prepareRes`, the environment it built);
then `BeginRo` (`beginRoOk`); then `fillTransactions`; then the feedback
switch (`nil` → decrease, `errBlockInterruptedByRecommit` → increase with
the clamped utilization ratio, anything else → no message); then
`commit`, which — only while running — copies the context, runs the
engine's `FinalizeAndAssemble` (`finalizeOk`), and on success replaces
the pending snapshot and submits the sealing task.  A panic escaping
`fillTransactions` propagates. -/
def commitWork {σ : Type} (running : Bool) (coinbase : Address)
    (prepareRes : Except Unit Environment) (beginRoOk : Bool)
    (interrupt : Option (Nat → Int)) (apply : ApplyFn σ)
    (prep : PrepareFn σ) (ibs : σ) (txsRes : Except Unit (List Tx))
    (finalizeOk : Bool) : CommitWorkResult :=
  if running ∧ coinbase = 0 then ⟨none, none, none, .errCoinbaseEmpty⟩
  else
    match prepareRes with
    | .error _ => ⟨none, none, none, .errPrepare⟩
    | .ok env =>
      if ¬beginRoOk then ⟨none, none, none, .errBeginRo⟩
      else
        let r := fillTransactions interrupt apply prep txsRes env ibs
        match r.outcome with
        | .panicked s => ⟨none, none, none, .panicked s⟩
        | o =>
          let feedback : Option Adjust :=
            match o with
            | .ok => some ⟨0, false⟩
            | .failed .interruptedByRecommit => some ⟨utilRatio r.env, true⟩
            | _ => none
          if running then
            if finalizeOk then
              let envc := envCopy r.env
              ⟨feedback, some (envc.txs, copyReceipts envc.receipts),
                some envc.receipts, .done⟩
            else ⟨feedback, none, none, .errCommit⟩
          else ⟨feedback, none, none, .done⟩

/-- The chain store as `resultLoop` uses it.  Modelled from the spec:
the chain store is an external collaborator (not under `src/`) with
`hasBlock(hash, number)` and `writeBlockWithState(...)`; a successful
write makes the block present.  `blocks` is the set of present blocks,
`writes` records each `WriteBlockWithState` call with the stamped
receipts passed to it. -/
structure ChainStore where
  blocks : List (Hash × Nat)
  writes : List (Hash × Nat × List Receipt)
deriving DecidableEq, Repr

/-- `hasBlock` of the chain store: presence by hash and number. -/
def hasBlock (c : ChainStore) (h : Hash) (n : Nat) : Bool :=
  decide ((h, n) ∈ c.blocks)

/-- A sealed block as `resultLoop` sees it: its hash, number, and the
pre-seal hash `w.engine.SealHash(block.Header())` (a deterministic
function of the header, carried as a field). -/
structure BlockM where
  hash : Hash
  number : Nat
  sealHash : Hash
deriving DecidableEq, Repr

/-- Lookup in `w.pendingTasks` by pre-seal hash. -/
def findTask (pending : List (Hash × TaskM)) (h : Hash) : Option TaskM :=
  match pending with
  | [] => none
  | (k, t) :: rest => if k = h then some t else findTask rest h

/-- The receipt-stamping pass of `resultLoop`: deep-copy each task
receipt, set its final block hash, block number and transaction index,
and stamp every contained log with the final block hash. -/
def stampReceipts (b : BlockM) (i : Nat) : List Receipt → List Receipt
  | [] => []
  | r :: rest =>
      { r with
          blockHash := b.hash
          blockNumber := b.number
          txIndex := i
          logs := r.logs.map (fun l => { l with blockHash := b.hash }) } ::
        stampReceipts b (i + 1) rest

/-- What one `resultCh` delivery did. -/
inductive ResultAction where
  | skippedNil
  | skippedDuplicate
  | skippedNoTask
  | wrote
  | writeFailed
deriving DecidableEq, Repr

/-- One iteration of `resultLoop` on a delivery `blk`: ignore nil;
short-circuit if the chain already has the block by hash and number;
look up the pending task by pre-seal hash and drop the block if absent;
otherwise stamp the receipts and call `WriteBlockWithState` (`writeOk`
tells whether the store accepts it; on failure the cycle is abandoned). -/
def resultStep (pending : List (Hash × TaskM)) (writeOk : Bool)
    (chain : ChainStore) (blk : Option BlockM) : ChainStore × ResultAction :=
  match blk with
  | none => (chain, .skippedNil)
  | some b =>
    if hasBlock chain b.hash b.number then (chain, .skippedDuplicate)
    else
      match findTask pending b.sealHash with
      | none => (chain, .skippedNoTask)
      | some t =>
        let stamped := stampReceipts b 0 t.receipts
        if writeOk then
          ({ blocks := chain.blocks ++ [(b.hash, b.number)]
             writes := chain.writes ++ [(b.hash, b.number, stamped)] },
            .wrote)
        else
          ({ chain with writes := chain.writes ++ [(b.hash, b.number, stamped)] },
            .writeFailed)

end Miner

namespace Miner

/-- C1: evaluation of `clearPending` at head number 10 over two pending
tasks, one at block number 2 (stale: `2 ≤ 10 - staleThreshold`) and one at
block number 9 (fresh: within `staleThreshold` of the head).  The code
retains the stale task and deletes the fresh one — the exact opposite of
the claimed purge, because the comparison in the source is inverted
(it deletes when `head ≤ taskNumber + staleThreshold`). -/
theorem clearPending_keeps_stale_drops_fresh :
    clearPending 10 [(1, ⟨2, []⟩), (2, ⟨9, []⟩)] = [(1, ⟨2, []⟩)] := by
  decide

/-- C2: whenever the state-transition function fails on a candidate
transaction (any classification `e`), `miningCommitTx` leaves the gas
pool at exactly its value before the attempt, reverts the intra-block
state to the snapshot taken before the attempt (the state right after
`ibs.Prepare`), and appends neither the transaction nor a receipt. -/
theorem miningCommitTx_exact_rollback {σ : Type} (apply : ApplyFn σ)
    (prep : PrepareFn σ) (txn : Tx) (env : Environment) (ibs : σ)
    (env' : Environment) (ibs' : σ) (e : Nat)
    (h : miningCommitTx apply prep txn env ibs = (env', ibs', some e)) :
    env'.gasPool = env.gasPool ∧ ibs' = prep txn env.tcount ibs ∧
      env'.txs = env.txs ∧ env'.receipts = env.receipts := by
  dsimp only [miningCommitTx] at h
  cases happly : apply txn (prep txn env.tcount ibs) env.gasPool env.header.gasUsed with
  | ok r i g u =>
      rw [happly] at h
      simp [Prod.ext_iff] at h
  | fail e2 i g u =>
      rw [happly] at h
      simp only [Prod.ext_iff] at h
      obtain ⟨henv, hibs, _⟩ := h
      subst henv
      subst hibs
      exact ⟨rfl, rfl, rfl, rfl⟩

/-- A concrete environment used to instantiate theorems with hypotheses. -/
def envW : Environment :=
  { ancestors := []
    family := []
    tcount := 0
    gasPool := 100000
    coinbase := 5
    header :=
      { parentHash := 0, coinbase := 5, number := 4, gasLimit := 100000,
        gasUsed := 0, time := 0 }
    txs := []
    receipts := [] }

/-- A state-transition function that always fails with an unclassified
error and reports back unrelated state/pool values (which the caller must
discard). -/
def applyFailW : ApplyFn Nat := fun _ s gp gu =>
  ApplyResult.fail 9 (s + 1) (gp + 99) gu

/-- Witness for C2 at a concrete failing transaction. -/
theorem miningCommitTx_exact_rollback_witness :
    (miningCommitTx applyFailW (fun _ _ s => s + 10) 7 envW 0 =
      (envW, 10, some 9)) ∧
    (envW.gasPool = envW.gasPool ∧ (10 : Nat) = (fun _ _ s => s + 10) 7 envW.tcount 0 ∧
      envW.txs = envW.txs ∧ envW.receipts = envW.receipts) :=
  ⟨rfl, miningCommitTx_exact_rollback applyFailW (fun _ _ s => s + 10) 7 envW 0
    envW 10 9 rfl⟩

/-- Header for the end-to-end scenario instances: gas limit 100000. -/
def hdr3 : HeaderM :=
  { parentHash := 0, coinbase := 5, number := 9, gasLimit := 100000,
    gasUsed := 0, time := 0 }

/-- Build context for the scenario instances, built by `makeEnv` over an
empty ancestor lookup. -/
def env3 : Environment := makeEnv (fun _ _ => []) hdr3 hdr3 5

/-- A prepare step that leaves the state untouched. -/
def prep3 : PrepareFn Nat := fun _ _ s => s

/-- Scenario C's state-transition function: transaction 2 fails with
nonce-too-low; every other transaction is applied for 21000 gas. -/
def apply3 : ApplyFn Nat := fun t s gp gu =>
  if t = 2 then ApplyResult.fail errNonceTooLow s gp gu
  else ApplyResult.ok
    { gasUsed := 21000, blockHash := 0, blockNumber := 0, txIndex := 0,
      logs := [] } s (gp - 21000) (gu + 21000)

/-- C3: a failing candidate never aborts assembly.  First conjunct: if
the state-transition function rejects every transaction (with any
classifications whatsoever), the candidate loop still completes normally,
with the context's transaction and receipt lists unchanged.  Second
conjunct, scenario C: for the pool `[1, 2, 3]` where only transaction 2
fails (nonce-too-low), the assembled context contains exactly
transactions 1 and 3, in that order, and assembly ends normally. -/
theorem fillTransactions_skips_failed_tx :
    (∀ (σ : Type) (apply : ApplyFn σ) (prep : PrepareFn σ) (txs : List Tx)
        (env : Environment) (ibs : σ) (step : Nat),
        (∀ t s gp gu, ∃ e s2 gp2 gu2,
          apply t s gp gu = ApplyResult.fail e s2 gp2 gu2) →
        ∃ env2 ibs2, fillLoop none apply prep txs env ibs step =
            ⟨env2, ibs2, .ok⟩ ∧
          env2.txs = env.txs ∧ env2.receipts = env.receipts) ∧
    ((fillTransactions none apply3 prep3 (.ok [1, 2, 3]) env3 0).env.txs =
        [1, 3] ∧
      (fillTransactions none apply3 prep3 (.ok [1, 2, 3]) env3 0).outcome =
        .ok) := by
  constructor
  · intro σ apply prep txs
    induction txs with
    | nil =>
        intro env ibs step _
        exact ⟨env, ibs, rfl, rfl, rfl⟩
    | cons txn rest ih =>
        intro env ibs step hfail
        by_cases hgas : env.gasPool < TxGas
        · refine ⟨env, ibs, ?_, rfl, rfl⟩
          simp [fillLoop, hgas]
        · obtain ⟨e, s2, gp2, gu2, happly⟩ :=
            hfail txn (prep txn env.tcount ibs) env.gasPool env.header.gasUsed
          obtain ⟨env2, ibs2, hrec, htxs, hrcpts⟩ :=
            ih { env with
                  gasPool := env.gasPool
                  header := { env.header with gasUsed := gu2 } }
              (prep txn env.tcount ibs) (step + 1) hfail
          refine ⟨env2, ibs2, ?_, htxs, hrcpts⟩
          simp [fillLoop, hgas, miningCommitTx, happly, hrec]
  · exact ⟨rfl, rfl⟩

/-- Witness for C3's universally quantified conjunct: a two-transaction
pool the always-failing function fully rejects, with the context's lists
left unchanged. -/
theorem fillTransactions_skips_failed_tx_witness :
    (∀ t s gp gu, ∃ e s2 gp2 gu2,
      applyFailW t s gp gu = ApplyResult.fail e s2 gp2 gu2) ∧
    (∃ env2 ibs2, fillLoop none applyFailW prep3 [4, 5] envW 0 0 =
        ⟨env2, ibs2, .ok⟩ ∧
      env2.txs = envW.txs ∧ env2.receipts = envW.receipts) :=
  ⟨fun _ s gp gu => ⟨9, s + 1, gp + 99, gu, rfl⟩,
    fillTransactions_skips_failed_tx.1 Nat applyFailW prep3 [4, 5] envW 0 0
      (fun _ s gp gu => ⟨9, s + 1, gp + 99, gu, rfl⟩)⟩

/-- Total gas used by a receipt list. -/
def sumGasUsed (rs : List Receipt) : Nat := (rs.map Receipt.gasUsed).sum

theorem sumGasUsed_append (rs : List Receipt) (r : Receipt) :
    sumGasUsed (rs ++ [r]) = sumGasUsed rs + r.gasUsed := by
  simp [sumGasUsed]

/-- The candidate loop preserves the quantity
`sumGasUsed receipts + gasPool`, provided the state-transition function
debits exactly each accepted receipt's gas from the pool. -/
theorem fillLoop_gas_invariant {σ : Type} (interrupt : Option (Nat → Int))
    (apply : ApplyFn σ) (prep : PrepareFn σ)
    (happly : ∀ t s gp gu r s2 gp2 gu2,
      apply t s gp gu = ApplyResult.ok r s2 gp2 gu2 → gp2 + r.gasUsed = gp) :
    ∀ (txs : List Tx) (env : Environment) (ibs : σ) (step : Nat),
      sumGasUsed (fillLoop interrupt apply prep txs env ibs step).env.receipts +
          (fillLoop interrupt apply prep txs env ibs step).env.gasPool =
        sumGasUsed env.receipts + env.gasPool := by
  intro txs
  induction txs with
  | nil => intro env ibs step; rfl
  | cons txn rest ih =>
    intro env ibs step
    rw [fillLoop.eq_def]
    dsimp only
    split
    · split <;> rfl
    · split
      · rfl
      · dsimp only [miningCommitTx]
        cases happ : apply txn (prep txn env.tcount ibs) env.gasPool
            env.header.gasUsed with
        | ok r i g u =>
            dsimp only
            rw [ih]
            dsimp only
            rw [sumGasUsed_append]
            have hg := happly _ _ _ _ _ _ _ _ happ
            rw [← hg]
            ring
        | fail e2 i g u =>
            dsimp only
            rw [ih]

/-- C4: for every candidate sequence, assembly over a context built by
`makeEnv` (whose gas pool is charged with `header.GasLimit`) keeps the
total gas of the accepted receipts within the header's gas limit,
provided the state-transition function debits exactly each accepted
receipt's gas from the shared pool (and therefore cannot accept a
transaction the pool cannot pay for, the pool being a `Nat`). -/
theorem fillTransactions_within_gas_limit {σ : Type}
    (gbfh : Hash → Nat → List Hash) (parent header : HeaderM) (cb : Address)
    (interrupt : Option (Nat → Int)) (apply : ApplyFn σ) (prep : PrepareFn σ)
    (ibs : σ) (txsRes : Except Unit (List Tx))
    (happly : ∀ t s gp gu r s2 gp2 gu2,
      apply t s gp gu = ApplyResult.ok r s2 gp2 gu2 → gp2 + r.gasUsed = gp) :
    sumGasUsed (fillTransactions interrupt apply prep txsRes
        (makeEnv gbfh parent header cb) ibs).env.receipts ≤
      header.gasLimit := by
  cases txsRes with
  | error _ => simp [fillTransactions, makeEnv, sumGasUsed]
  | ok txs =>
    have hfd : fillTransactions interrupt apply prep (.ok txs)
        (makeEnv gbfh parent header cb) ibs =
        fillLoop interrupt apply prep txs
          { makeEnv gbfh parent header cb with txs := [] } ibs 0 := rfl
    rw [hfd]
    have h := fillLoop_gas_invariant interrupt apply prep happly txs
      { makeEnv gbfh parent header cb with txs := [] } ibs 0
    have h2 : sumGasUsed
          ({ makeEnv gbfh parent header cb with txs := [] } : Environment).receipts +
        ({ makeEnv gbfh parent header cb with txs := [] } : Environment).gasPool =
        header.gasLimit := by
      simp [makeEnv, sumGasUsed]
    rw [h2] at h
    omega

/-- A state-transition function that debits exactly 21000 gas per
accepted transaction and reports gas-limit-reached when the pool cannot
pay. -/
def applyDebitW : ApplyFn Nat := fun _ s gp gu =>
  if 21000 ≤ gp then
    ApplyResult.ok
      { gasUsed := 21000, blockHash := 0, blockNumber := 0, txIndex := 0,
        logs := [] } s (gp - 21000) (gu + 21000)
  else ApplyResult.fail errGasLimitReached s gp gu

theorem applyDebitW_debits : ∀ t s gp gu r s2 gp2 gu2,
    applyDebitW t s gp gu = ApplyResult.ok r s2 gp2 gu2 →
    gp2 + r.gasUsed = gp := by
  intro t s gp gu r s2 gp2 gu2 h
  simp only [applyDebitW] at h
  split at h
  · rw [ApplyResult.ok.injEq] at h
    obtain ⟨h1, h2, h3, h4⟩ := h
    subst h1
    subst h3
    dsimp only
    omega
  · exact absurd h (by simp)

set_option maxRecDepth 8000 in
/-- Witness for C4: six 21000-gas candidates against a 100000 gas limit
(only four can fit). -/
theorem fillTransactions_within_gas_limit_witness :
    (∀ t s gp gu r s2 gp2 gu2,
      applyDebitW t s gp gu = ApplyResult.ok r s2 gp2 gu2 →
      gp2 + r.gasUsed = gp) ∧
    sumGasUsed (fillTransactions none applyDebitW prep3
        (.ok [1, 2, 3, 4, 5, 6]) (makeEnv (fun _ _ => []) hdr3 hdr3 5)
        0).env.receipts ≤ hdr3.gasLimit :=
  ⟨applyDebitW_debits,
    fillTransactions_within_gas_limit (fun _ _ => []) hdr3 hdr3 5 none
      applyDebitW prep3 0 (.ok [1, 2, 3, 4, 5, 6]) applyDebitW_debits⟩

theorem durTrunc_le_of_le {q : ℚ} {m : Int} (h : q ≤ (m : ℚ)) :
    durTrunc q ≤ m := by
  unfold durTrunc
  split
  · exact Int.ceil_le.mpr h
  · have hq : ((Int.floor q : Int) : ℚ) ≤ (m : ℚ) := le_trans (Int.floor_le q) h
    exact_mod_cast hq

theorem le_durTrunc_of_le {m : Int} {q : ℚ} (h : (m : ℚ) ≤ q) :
    m ≤ durTrunc q := by
  unfold durTrunc
  split
  · have hq : (m : ℚ) ≤ ((Int.ceil q : Int) : ℚ) := le_trans h (Int.le_ceil q)
    exact_mod_cast hq
  · exact Int.le_floor.mpr h

/-- C6 amended: the increase branch of `recalcRecommit` never returns
more than `maxRecommitInterval` and the decrease branch never returns
less than `minRecommit` — for every previous interval and target.  (The
original claim's further assertion, that no input yields a result outside
the interval, fails: the increase branch has no floor, see the
counterexample.) -/
theorem recalcRecommit_branch_bounds (minRecommit prev : Int) (target : ℚ) :
    recalcRecommit minRecommit prev target true ≤ maxRecommitIntervalNs ∧
    minRecommit ≤ recalcRecommit minRecommit prev target false := by
  constructor
  · have hr : recalcRecommit minRecommit prev target true =
        durTrunc (if (prev : ℚ) * (1 - intervalAdjustRatio) +
              intervalAdjustRatio * (target + intervalAdjustBias) >
              (maxRecommitIntervalNs : ℚ) then (maxRecommitIntervalNs : ℚ)
          else (prev : ℚ) * (1 - intervalAdjustRatio) +
              intervalAdjustRatio * (target + intervalAdjustBias)) := rfl
    rw [hr]
    apply durTrunc_le_of_le
    split
    · exact le_refl _
    · next hn => exact le_of_not_lt hn
  · have hr : recalcRecommit minRecommit prev target false =
        durTrunc (if (prev : ℚ) * (1 - intervalAdjustRatio) +
              intervalAdjustRatio * (target - intervalAdjustBias) <
              (minRecommit : ℚ) then (minRecommit : ℚ)
          else (prev : ℚ) * (1 - intervalAdjustRatio) +
              intervalAdjustRatio * (target - intervalAdjustBias)) := rfl
    rw [hr]
    apply le_durTrunc_of_le
    split
    · exact le_refl _
    · next hn => exact le_of_not_lt hn

/-- C6 counterexample: on the increase branch with the floor and the
previous interval both at 1 s and a target of 0.1 s (the target a
utilization ratio of 10 would produce), `recalcRecommit` returns 0.93 s,
strictly below the `minRecommit` floor — so the output is not always
within the claimed interval. -/
theorem recalcRecommit_below_floor :
    recalcRecommit minPeriodIntervalNs minPeriodIntervalNs 100000000 true <
      minPeriodIntervalNs := by
  norm_num [recalcRecommit, durTrunc, intervalAdjustRatio,
    intervalAdjustBias, maxRecommitIntervalNs, minPeriodIntervalNs]

/-- The candidate loop preserves equality of the transaction and receipt
list lengths: the success path appends exactly one of each, the failure
and early-return paths append neither. -/
theorem fillLoop_preserves_len {σ : Type} (interrupt : Option (Nat → Int))
    (apply : ApplyFn σ) (prep : PrepareFn σ) :
    ∀ (txs : List Tx) (env : Environment) (ibs : σ) (step : Nat),
      env.txs.length = env.receipts.length →
      (fillLoop interrupt apply prep txs env ibs step).env.txs.length =
        (fillLoop interrupt apply prep txs env ibs step).env.receipts.length := by
  intro txs
  induction txs with
  | nil => intro env ibs step h; exact h
  | cons txn rest ih =>
    intro env ibs step h
    rw [fillLoop.eq_def]
    dsimp only
    split
    · split <;> exact h
    · split
      · exact h
      · dsimp only [miningCommitTx]
        cases happ : apply txn (prep txn env.tcount ibs) env.gasPool
            env.header.gasUsed with
        | ok r i g u =>
            dsimp only
            apply ih
            simp [h]
        | fail e2 i g u =>
            dsimp only
            apply ih
            exact h

/-- C7: the build context's `txs` and `receipts` stay aligned.  First
conjunct: one `miningCommitTx` step preserves equal lengths (success
appends exactly one transaction and one receipt together; failure appends
neither).  Second conjunct: starting from a context whose receipt list is
empty (as `makeEnv` produces — `fillTransactions` itself clears `txs` on
entry), the returned context has `txs` and `receipts` of equal length on
every path, including the transaction-pool-error return and interrupted
runs. -/
theorem fillTransactions_txs_receipts_aligned :
    (∀ (σ : Type) (apply : ApplyFn σ) (prep : PrepareFn σ) (txn : Tx)
        (env : Environment) (ibs : σ),
        env.txs.length = env.receipts.length →
        (miningCommitTx apply prep txn env ibs).1.txs.length =
          (miningCommitTx apply prep txn env ibs).1.receipts.length) ∧
    (∀ (σ : Type) (interrupt : Option (Nat → Int)) (apply : ApplyFn σ)
        (prep : PrepareFn σ) (txsRes : Except Unit (List Tx))
        (env : Environment) (ibs : σ),
        env.receipts = [] →
        (fillTransactions interrupt apply prep txsRes env ibs).env.txs.length =
          (fillTransactions interrupt apply prep txsRes env ibs).env.receipts.length) := by
  constructor
  · intro σ apply prep txn env ibs h
    dsimp only [miningCommitTx]
    cases happ : apply txn (prep txn env.tcount ibs) env.gasPool
        env.header.gasUsed with
    | ok r i g u => dsimp only; simp [h]
    | fail e2 i g u => dsimp only; exact h
  · intro σ interrupt apply prep txsRes env ibs h
    cases txsRes with
    | error _ => simp [fillTransactions, h]
    | ok txs =>
      have hstep : fillTransactions interrupt apply prep (.ok txs) env ibs =
          fillLoop interrupt apply prep txs { env with txs := [] } ibs 0 := rfl
      rw [hstep]
      apply fillLoop_preserves_len
      simp [h]

/-- Witness for C7 at a concrete step and a concrete three-transaction
run. -/
theorem fillTransactions_txs_receipts_aligned_witness :
    (envW.txs.length = envW.receipts.length ∧
      (miningCommitTx apply3 prep3 1 envW 0).1.txs.length =
        (miningCommitTx apply3 prep3 1 envW 0).1.receipts.length) ∧
    (env3.receipts = [] ∧
      (fillTransactions none apply3 prep3 (.ok [1, 2, 3]) env3 0).env.txs.length =
        (fillTransactions none apply3 prep3 (.ok [1, 2, 3]) env3 0).env.receipts.length) :=
  ⟨⟨rfl, fillTransactions_txs_receipts_aligned.1 Nat apply3 prep3 1 envW 0 rfl⟩,
    ⟨rfl, fillTransactions_txs_receipts_aligned.2 Nat none apply3 prep3
      (.ok [1, 2, 3]) env3 0 rfl⟩⟩

/-- C8: when the interruption flag carries a non-none signal before the
first candidate is attempted, `fillTransactions` aborts immediately with
the error classification `signalToErr` assigns to the three defined
signals, and for any other value it panics (the `panicked` outcome)
rather than returning an error. -/
theorem fillTransactions_interrupt_classification {σ : Type} (f : Nat → Int)
    (apply : ApplyFn σ) (prep : PrepareFn σ) (txn : Tx) (rest : List Tx)
    (env : Environment) (ibs : σ) (hne : f 0 ≠ commitInterruptNone) :
    fillTransactions (some f) apply prep (.ok (txn :: rest)) env ibs =
      ⟨{ env with txs := [] }, ibs,
        if f 0 = commitInterruptNewHead then .failed .interruptedByNewHead
        else if f 0 = commitInterruptResubmit then .failed .interruptedByRecommit
        else if f 0 = commitInterruptTimeout then .failed .interruptedByTimeout
        else .panicked (f 0)⟩ := by
  have hstep : fillTransactions (some f) apply prep (.ok (txn :: rest)) env ibs =
      fillLoop (some f) apply prep (txn :: rest) { env with txs := [] } ibs 0 :=
    rfl
  rw [hstep]
  rw [fillLoop.eq_def]
  dsimp only
  rw [if_pos hne]
  by_cases h1 : f 0 = commitInterruptNewHead
  · simp [signalToErr, h1]
  · by_cases h2 : f 0 = commitInterruptResubmit
    · simp [signalToErr, h1, h2, commitInterruptNewHead, commitInterruptResubmit]
    · by_cases h3 : f 0 = commitInterruptTimeout
      · simp [signalToErr, h1, h2, h3, commitInterruptNewHead,
          commitInterruptResubmit, commitInterruptTimeout]
      · simp [signalToErr, h1, h2, h3]

/-- Witness for C8 at the undefined signal value 5: the run ends in the
panic outcome. -/
theorem fillTransactions_interrupt_classification_witness :
    ((fun _ : Nat => (5 : Int)) 0 ≠ commitInterruptNone) ∧
    fillTransactions (some (fun _ : Nat => (5 : Int))) applyFailW prep3
        (.ok [4]) envW 0 =
      ⟨{ envW with txs := [] }, 0,
        if (fun _ : Nat => (5 : Int)) 0 = commitInterruptNewHead then
          .failed .interruptedByNewHead
        else if (fun _ : Nat => (5 : Int)) 0 = commitInterruptResubmit then
          .failed .interruptedByRecommit
        else if (fun _ : Nat => (5 : Int)) 0 = commitInterruptTimeout then
          .failed .interruptedByTimeout
        else .panicked ((fun _ : Nat => (5 : Int)) 0)⟩ :=
  ⟨by decide, fillTransactions_interrupt_classification (fun _ => 5) applyFailW
    prep3 4 [] envW 0 (by decide)⟩

/-- C5 counterexample: a new head arrives mid-assembly (the interruption
flag carries the new-head signal before the first of three candidates):
assembly does return the interrupted-by-new-head classification, but
`commitWork` sends no feedback message at all on the resubmit-adjust
channel — not the claimed increase signal (its switch only handles the
nil and recommit cases). -/
theorem commitWork_new_head_no_increase :
    (fillTransactions (some (fun _ => commitInterruptNewHead)) apply3 prep3
        (.ok [1, 2, 3]) env3 0).outcome = .failed .interruptedByNewHead ∧
    (commitWork true 5 (.ok env3) true (some (fun _ => commitInterruptNewHead))
        apply3 prep3 0 (.ok [1, 2, 3]) true).feedback = none :=
  ⟨rfl, rfl⟩

/-- C5 amended: when `fillTransactions` ends with the
interrupted-by-new-head classification, `commitWork` sends no feedback
message on the resubmit-adjust channel (an increase message is sent only
for the interrupted-by-recommit classification). -/
theorem commitWork_new_head_sends_no_feedback {σ : Type} (running : Bool)
    (coinbase : Address) (beginRoOk : Bool) (env : Environment)
    (interrupt : Option (Nat → Int)) (apply : ApplyFn σ) (prep : PrepareFn σ)
    (ibs : σ) (txsRes : Except Unit (List Tx)) (finalizeOk : Bool)
    (hfill : (fillTransactions interrupt apply prep txsRes env ibs).outcome =
      .failed .interruptedByNewHead) :
    (commitWork running coinbase (.ok env) beginRoOk interrupt apply prep ibs
        txsRes finalizeOk).feedback = none := by
  dsimp only [commitWork]
  split
  · rfl
  · split
    · rfl
    · rw [hfill]
      dsimp only
      split
      · split <;> rfl
      · rfl

/-- Witness for C5's amended theorem at the counterexample's input. -/
theorem commitWork_new_head_sends_no_feedback_witness :
    ((fillTransactions (some (fun _ => commitInterruptNewHead)) apply3 prep3
        (.ok [1, 2, 3]) env3 0).outcome = .failed .interruptedByNewHead) ∧
    (commitWork true 5 (.ok env3) true (some (fun _ => commitInterruptNewHead))
        apply3 prep3 0 (.ok [1, 2, 3]) true).feedback = none :=
  ⟨rfl, commitWork_new_head_sends_no_feedback true 5 true env3
    (some (fun _ => commitInterruptNewHead)) apply3 prep3 0 (.ok [1, 2, 3])
    true rfl⟩

/-- C10: if assembly ends with any error classification `e` — the
propagated transaction-pool failure or an interruption — while the worker
is running, has a coinbase, prepared a context and opened its read
transaction, `commitWork` does not abort the cycle: with the engine's
finalize succeeding it finishes with `done`, replaces the pending
snapshot with the partial context, and submits the sealing task; the only
error-dependent effect is the feedback message (an increase for the
recommit classification, nothing for new-head, timeout or a pool error). -/
theorem commitWork_continues_after_fill_error {σ : Type} (coinbase : Address)
    (env : Environment) (interrupt : Option (Nat → Int)) (apply : ApplyFn σ)
    (prep : PrepareFn σ) (ibs : σ) (txsRes : Except Unit (List Tx))
    (e : FillError) (hcb : coinbase ≠ 0)
    (hfill : (fillTransactions interrupt apply prep txsRes env ibs).outcome =
      .failed e) :
    (commitWork true coinbase (.ok env) true interrupt apply prep ibs txsRes
        true).outcome = .done ∧
    (commitWork true coinbase (.ok env) true interrupt apply prep ibs txsRes
        true).snapshotUpdated =
      some ((fillTransactions interrupt apply prep txsRes env ibs).env.txs,
        (fillTransactions interrupt apply prep txsRes env ibs).env.receipts) ∧
    (commitWork true coinbase (.ok env) true interrupt apply prep ibs txsRes
        true).submittedTask =
      some (fillTransactions interrupt apply prep txsRes env ibs).env.receipts ∧
    (commitWork true coinbase (.ok env) true interrupt apply prep ibs txsRes
        true).feedback =
      (if e = .interruptedByRecommit then
        some ⟨utilRatio (fillTransactions interrupt apply prep txsRes env
          ibs).env, true⟩
      else none) := by
  have hc : ¬(true = true ∧ coinbase = 0) := by simp [hcb]
  cases e <;>
    refine ⟨?_, ?_, ?_, ?_⟩ <;>
      simp [commitWork, hfill, hc, hcb, envCopy, copyReceipts]

/-- Witness for C10 at a timeout interruption over a three-transaction
pool. -/
theorem commitWork_continues_after_fill_error_witness :
    ((5 : Address) ≠ 0) ∧
    ((fillTransactions (some (fun _ => commitInterruptTimeout)) apply3 prep3
        (.ok [1, 2, 3]) env3 0).outcome = .failed .interruptedByTimeout) ∧
    ((commitWork true 5 (.ok env3) true
          (some (fun _ => commitInterruptTimeout)) apply3 prep3 0
          (.ok [1, 2, 3]) true).outcome = .done ∧
      (commitWork true 5 (.ok env3) true
          (some (fun _ => commitInterruptTimeout)) apply3 prep3 0
          (.ok [1, 2, 3]) true).snapshotUpdated =
        some ((fillTransactions (some (fun _ => commitInterruptTimeout)) apply3
            prep3 (.ok [1, 2, 3]) env3 0).env.txs,
          (fillTransactions (some (fun _ => commitInterruptTimeout)) apply3
            prep3 (.ok [1, 2, 3]) env3 0).env.receipts) ∧
      (commitWork true 5 (.ok env3) true
          (some (fun _ => commitInterruptTimeout)) apply3 prep3 0
          (.ok [1, 2, 3]) true).submittedTask =
        some (fillTransactions (some (fun _ => commitInterruptTimeout)) apply3
          prep3 (.ok [1, 2, 3]) env3 0).env.receipts ∧
      (commitWork true 5 (.ok env3) true
          (some (fun _ => commitInterruptTimeout)) apply3 prep3 0
          (.ok [1, 2, 3]) true).feedback =
        (if FillError.interruptedByTimeout = .interruptedByRecommit then
          some ⟨utilRatio (fillTransactions
            (some (fun _ => commitInterruptTimeout)) apply3 prep3
            (.ok [1, 2, 3]) env3 0).env, true⟩
        else none)) :=
  ⟨by decide, rfl,
    commitWork_continues_after_fill_error 5 env3
      (some (fun _ => commitInterruptTimeout)) apply3 prep3 0 (.ok [1, 2, 3])
      .interruptedByTimeout (by decide) rfl⟩

/-- C9: delivering the same sealed block to the result handler twice
causes exactly one chain-store write.  For a block the chain does not yet
have, with a matching pending task, the first delivery stamps the
receipts and performs the write; the second delivery short-circuits on
`hasBlock` — the chain state is unchanged and no further write happens —
and a nil delivery is ignored with no state change. -/
theorem resultStep_idempotent (pending : List (Hash × TaskM))
    (chain : ChainStore) (b : BlockM) (t : TaskM)
    (hfind : findTask pending b.sealHash = some t)
    (hnew : hasBlock chain b.hash b.number = false) :
    (resultStep pending true chain (some b)).2 = .wrote ∧
    (resultStep pending true chain (some b)).1.writes.length =
      chain.writes.length + 1 ∧
    resultStep pending true (resultStep pending true chain (some b)).1
        (some b) =
      ((resultStep pending true chain (some b)).1, .skippedDuplicate) ∧
    resultStep pending true chain none = (chain, .skippedNil) := by
  have h1 : resultStep pending true chain (some b) =
      ({ blocks := chain.blocks ++ [(b.hash, b.number)],
         writes := chain.writes ++
           [(b.hash, b.number, stampReceipts b 0 t.receipts)] }, .wrote) := by
    simp [resultStep, hnew, hfind]
  have h2 : hasBlock
      ({ blocks := chain.blocks ++ [(b.hash, b.number)],
         writes := chain.writes ++
           [(b.hash, b.number, stampReceipts b 0 t.receipts)] } : ChainStore)
      b.hash b.number = true := by
    simp [hasBlock]
  refine ⟨?_, ?_, ?_, rfl⟩
  · rw [h1]
  · rw [h1]
    simp
  · rw [h1]
    simp [resultStep, h2]

/-- A concrete pending task and sealed block for the C9 witness. -/
def taskW : TaskM := ⟨10, [⟨21000, 0, 0, 0, [⟨3, 0⟩]⟩]⟩

/-- The C9 witness block: hash 55 at number 10 with pre-seal hash 77. -/
def blockW : BlockM := ⟨55, 10, 77⟩

/-- Witness for C9: one pending task keyed by pre-seal hash 77 against an
empty chain store. -/
theorem resultStep_idempotent_witness :
    (findTask [(77, taskW)] blockW.sealHash = some taskW) ∧
    (hasBlock ⟨[], []⟩ blockW.hash blockW.number = false) ∧
    ((resultStep [(77, taskW)] true ⟨[], []⟩ (some blockW)).2 = .wrote ∧
      (resultStep [(77, taskW)] true ⟨[], []⟩ (some blockW)).1.writes.length =
        (⟨[], []⟩ : ChainStore).writes.length + 1 ∧
      resultStep [(77, taskW)] true
          (resultStep [(77, taskW)] true ⟨[], []⟩ (some blockW)).1
          (some blockW) =
        ((resultStep [(77, taskW)] true ⟨[], []⟩ (some blockW)).1,
          .skippedDuplicate) ∧
      resultStep [(77, taskW)] true ⟨[], []⟩ none =
        ((⟨[], []⟩ : ChainStore), .skippedNil)) :=
  ⟨rfl, rfl, resultStep_idempotent [(77, taskW)] ⟨[], []⟩ blockW taskW rfl rfl⟩

end Miner
